import Mathlib

/-!
Verification of the EncrypT chat server (ChatMessage.cpp, ChatServer.cpp, ChatServer.hpp)
against its specification.  Byte buffers are modelled as total maps from offsets to byte
values, sizes as natural numbers, and the int-to-size_t conversion in decode_header as
reduction modulo 2^64.
-/

namespace EncrypT

/-- Modelled from the spec: ChatMessage.hpp is not under src/.  The spec describes the header
as a fixed-width ASCII decimal field and ChatMessage.cpp formats it with the conversion %4d
into a buffer of header_length + 1 bytes, so the header field is 4 bytes wide. -/
def header_length : Nat := 4

/-- Modelled from the spec: ChatMessage.hpp is not under src/.  The spec only says that
max_body_length is a fixed constant bounding the body size; 512 is the conventional value of
this constant in the chat-message framing this code follows, and it is consistent with the
4-byte decimal header (the round-trip contract of the spec requires the bound to fit in four
decimal digits).  Every claim that mentions the constant is settled against this value. -/
def max_body_length : Nat := 512

/-- Modelled from the spec: the data_ buffer declared in the missing ChatMessage.hpp holds one
whole frame, header plus body, so its capacity is header_length + max_body_length bytes;
indices at or beyond this capacity lie outside the buffer. -/
def data_capacity : Nat := header_length + max_body_length

/-- A ChatMessage: data_ is the frame buffer, modelled as a total byte map so that the
out-of-bounds writes of set_data are expressible, and body_length_ is the stored body
length. -/
structure ChatMessage where
  data_ : Nat → Nat
  body_length_ : Nat

/-- The user-defined copy constructor ChatMessage(const ChatMessage &) initializes only
body_length_; the data_ buffer of the new object is left uninitialized, so its content is
whatever the fresh memory happens to hold, passed here as the argument uninit. -/
def ChatMessage.copyCtor (otherMessage : ChatMessage) (uninit : Nat → Nat) : ChatMessage :=
  { data_ := uninit, body_length_ := otherMessage.body_length_ }

/-- ChatMessage::set_data copies size bytes from the argument array into data_ with no bounds
check: for every 0 <= i < size, data_[i] = data[i].  Writes at indices at or beyond
data_capacity are out of bounds in the C++; the unbounded byte map records them.  body_length_
is not modified. -/
def ChatMessage.set_data (m : ChatMessage) (data : Nat → Nat) (size : Nat) : ChatMessage :=
  { m with data_ := fun i => if i < size then data i else m.data_ i }

/-- The getter overload ChatMessage::body_length() const. -/
def ChatMessage.body_length (m : ChatMessage) : Nat :=
  m.body_length_

/-- The setter overload ChatMessage::body_length(std::size_t): stores new_length, then clamps
the stored value down to max_body_length when it exceeds that bound. -/
def ChatMessage.set_body_length (m : ChatMessage) (new_length : Nat) : ChatMessage :=
  { m with body_length_ :=
      if new_length > max_body_length then max_body_length else new_length }

/-- ChatMessage::length(): total frame length, header plus body. -/
def ChatMessage.length (m : ChatMessage) : Nat :=
  header_length + m.body_length_

/-- The body bytes of a message: body() returns data_ + header_length, and the body consists of
the body_length_ bytes found there. -/
def ChatMessage.bodyBytes (m : ChatMessage) : List Nat :=
  (List.range m.body_length_).map fun k => m.data_ (header_length + k)

/-- The four header bytes that sprintf with the conversion %4d writes for a value n <= 9999:
the decimal digits of n, right-justified in a 4-byte field padded with spaces (ASCII 32),
digits being ASCII 48 + d.  For n >= 10000 the C++ overflows its 5-byte local buffer
(undefined behavior); no claim reaches that regime because the setter clamps body_length_ to
max_body_length. -/
def encodeHeaderBytes (n : Nat) : List Nat :=
  if n < 10 then [32, 32, 32, 48 + n]
  else if n < 100 then [32, 32, 48 + n / 10, 48 + n % 10]
  else if n < 1000 then [32, 48 + n / 100, 48 + n / 10 % 10, 48 + n % 10]
  else [48 + n / 1000 % 10, 48 + n / 100 % 10, 48 + n / 10 % 10, 48 + n % 10]

/-- ChatMessage::encode_header: sprintf the body length with %4d into a local header buffer
and memcpy its first header_length bytes into the front of data_. -/
def ChatMessage.encode_header (m : ChatMessage) : ChatMessage :=
  { m with data_ := fun i =>
      if i < header_length then (encodeHeaderBytes m.body_length_).getD i 0 else m.data_ i }

/-- The whitespace test of the C isspace function in the default locale: the space byte and
the control bytes 9 to 13. -/
def isSpaceByte (c : Nat) : Bool :=
  c = 32 || (9 <= c && c <= 13)

/-- The leading-whitespace skipping performed by atoi. -/
def skipWs : List Nat → List Nat
  | [] => []
  | c :: cs => if isSpaceByte c then skipWs cs else c :: cs

/-- The digit-run parsing performed by atoi: consume ASCII digit bytes, accumulating the
value, and stop at the first non-digit.  A NUL byte, in particular, stops the parse, which
also models the strncat truncation of the header at an embedded NUL: every byte after a NUL is
ignored by both the C code and this model, since a NUL is neither whitespace, sign, nor
digit. -/
def parseDigits : List Nat → Nat → Nat
  | [], acc => acc
  | c :: cs, acc =>
      if 48 <= c && c <= 57 then parseDigits cs (acc * 10 + (c - 48)) else acc

/-- The sign-and-digit-run phase of atoi, applied after whitespace skipping: accept one
optional sign (ASCII 45 minus, 43 plus), then parse a digit run; an empty digit run yields
0. -/
def atoiSigned : List Nat → Int
  | [] => 0
  | c :: cs =>
      if c = 45 then -(parseDigits cs 0 : Int)
      else if c = 43 then (parseDigits cs 0 : Int)
      else (parseDigits (c :: cs) 0 : Int)

/-- C atoi on a byte string: skip leading whitespace, then the sign-and-digit phase. -/
def atoi (l : List Nat) : Int :=
  atoiSigned (skipWs l)

/-- The header field that decode_header reads: the first header_length bytes of data_. -/
def ChatMessage.headerField (m : ChatMessage) : List Nat :=
  (List.range header_length).map m.data_

/-- ChatMessage::decode_header: copy the header field into a NUL-terminated local buffer with
strncat, parse it with atoi, and store the int result into the size_t field body_length_ (a
negative int wraps modulo 2^64 = 18446744073709551616 on conversion to size_t); if the stored
value exceeds max_body_length, reset body_length_ to 0 and return false, else return true. -/
def ChatMessage.decode_header (m : ChatMessage) : Bool × ChatMessage :=
  let v : Int := atoi m.headerField
  let bl : Nat := (v % 18446744073709551616).toNat
  if bl > max_body_length then (false, { m with body_length_ := 0 })
  else (true, { m with body_length_ := bl })

/-! Codec lemmas. -/

lemma encodeHeaderBytes_length (n : Nat) : (encodeHeaderBytes n).length = 4 := by
  unfold encodeHeaderBytes
  split
  · rfl
  · split
    · rfl
    · split
      · rfl
      · rfl

lemma list_length_four (l : List Nat) (h : l.length = 4) :
    ∃ a b c d, l = [a, b, c, d] := by
  rcases l with _ | ⟨a, _ | ⟨b, _ | ⟨c, _ | ⟨d, _ | ⟨e, t⟩⟩⟩⟩⟩ <;> simp at h
  exact ⟨a, b, c, d, rfl⟩

lemma headerField_encode (m : ChatMessage) :
    m.encode_header.headerField = encodeHeaderBytes m.body_length_ := by
  obtain ⟨a, b, c, d, he⟩ :=
    list_length_four (encodeHeaderBytes m.body_length_) (encodeHeaderBytes_length _)
  rw [he]
  simp [ChatMessage.headerField, ChatMessage.encode_header, he, header_length,
    List.range_succ]

lemma set_body_length_eq (m : ChatMessage) (n : Nat) (h : n ≤ max_body_length) :
    (m.set_body_length n).body_length_ = n := by
  simp only [ChatMessage.set_body_length]
  split
  · omega
  · rfl

set_option maxRecDepth 4000 in
lemma atoi_encodeHeaderBytes : ∀ n, n < 513 → atoi (encodeHeaderBytes n) = n := by
  decide

lemma parseDigits_lt : ∀ (l : List Nat) (acc : Nat),
    parseDigits l acc < (acc + 1) * 10 ^ l.length := by
  intro l
  induction l with
  | nil => intro acc; simp [parseDigits]
  | cons c cs ih =>
      intro acc
      simp only [parseDigits, List.length_cons]
      split
      · calc parseDigits cs (acc * 10 + (c - 48))
              < (acc * 10 + (c - 48) + 1) * 10 ^ cs.length := ih _
          _ ≤ (acc + 1) * 10 ^ (cs.length + 1) := by
              have hc : c - 48 ≤ 9 := by
                rename_i hdig
                simp only [Bool.and_eq_true, decide_eq_true_eq] at hdig
                omega
              have : acc * 10 + (c - 48) + 1 ≤ (acc + 1) * 10 := by omega
              calc (acc * 10 + (c - 48) + 1) * 10 ^ cs.length
                  ≤ ((acc + 1) * 10) * 10 ^ cs.length :=
                    Nat.mul_le_mul_right _ this
                _ = (acc + 1) * 10 ^ (cs.length + 1) := by ring
      · have h1 : (1 : Nat) ≤ 10 ^ (cs.length + 1) := Nat.one_le_pow _ _ (by omega)
        calc acc < acc + 1 := Nat.lt_succ_self _
          _ = (acc + 1) * 1 := (Nat.mul_one _).symm
          _ ≤ (acc + 1) * 10 ^ (cs.length + 1) := Nat.mul_le_mul_left _ h1

lemma skipWs_length_le : ∀ l : List Nat, (skipWs l).length ≤ l.length := by
  intro l
  induction l with
  | nil => simp [skipWs]
  | cons c cs ih =>
      simp only [skipWs]
      split
      · exact le_trans ih (by simp)
      · simp

lemma parseDigits_len_le (l : List Nat) (h : l.length ≤ 4) :
    parseDigits l 0 < 10000 := by
  have h1 := parseDigits_lt l 0
  have hp : 10 ^ l.length ≤ 10 ^ 4 := Nat.pow_le_pow_right (by omega) h
  have h2 : (0 + 1) * 10 ^ l.length = 10 ^ l.length := by ring
  rw [h2] at h1
  have h3 : (10 : Nat) ^ 4 = 10000 := by norm_num
  omega

lemma atoi_lt (l : List Nat) (h : l.length ≤ 4) : atoi l < 10000 := by
  have hsk : (skipWs l).length ≤ 4 := le_trans (skipWs_length_le l) h
  unfold atoi
  rcases hw : skipWs l with _ | ⟨c, cs⟩
  · simp [atoiSigned]
  · rw [hw] at hsk
    simp only [List.length_cons] at hsk
    have h1 : parseDigits cs 0 < 10000 := parseDigits_len_le cs (by omega)
    have h2 : parseDigits (c :: cs) 0 < 10000 :=
      parseDigits_len_le (c :: cs) (by simp only [List.length_cons]; omega)
    have h0 : (0 : Int) ≤ (parseDigits cs 0 : Int) := Int.natCast_nonneg _
    simp only [atoiSigned]
    split
    · omega
    · split
      · exact_mod_cast h1
      · exact_mod_cast h2

lemma headerField_length (m : ChatMessage) : m.headerField.length = 4 := by
  simp [ChatMessage.headerField, header_length]

/-- C1: Header round-trip.  For every n with 0 ≤ n ≤ max_body_length, setting body_length to
n (via the clamping setter), calling encode_header, and then calling decode_header on the
resulting buffer succeeds and yields body_length == n. -/
theorem C1_header_roundtrip (m : ChatMessage) (n : Nat) (h : n ≤ max_body_length) :
    ((m.set_body_length n).encode_header.decode_header).1 = true ∧
    ((m.set_body_length n).encode_header.decode_header).2.body_length_ = n := by
  have hbl : (m.set_body_length n).body_length_ = n := set_body_length_eq m n h
  have hhf : (m.set_body_length n).encode_header.headerField = encodeHeaderBytes n := by
    rw [headerField_encode, hbl]
  have hmax : max_body_length = 512 := rfl
  have hat : atoi ((m.set_body_length n).encode_header.headerField) = n := by
    rw [hhf]; exact atoi_encodeHeaderBytes n (by omega)
  simp only [ChatMessage.decode_header, hat]
  have hmod : ((n : Int) % 18446744073709551616) = (n : Int) := by omega
  rw [hmod]
  simp only [Int.toNat_natCast]
  have hng : ¬ n > max_body_length := by omega
  rw [if_neg hng]
  exact ⟨rfl, rfl⟩

/-- Witness for C1 at n = 2. -/
theorem C1_header_roundtrip_witness :
    2 ≤ max_body_length ∧
    ((({ data_ := fun _ => 0, body_length_ := 0 } : ChatMessage).set_body_length
        2).encode_header.decode_header).1 = true ∧
    ((({ data_ := fun _ => 0, body_length_ := 0 } : ChatMessage).set_body_length
        2).encode_header.decode_header).2.body_length_ = 2 :=
  ⟨by decide, C1_header_roundtrip { data_ := fun _ => 0, body_length_ := 0 } 2 (by decide)⟩

/-- C3: Rejection.  For every message buffer whose header field parses (as C atoi does) to a
value strictly greater than max_body_length, decode_header returns failure and leaves
body_length equal to 0; for every header parsing to a value within 0 ≤ value ≤
max_body_length, decode_header succeeds and sets body_length to that value. -/
theorem C3_decode_reject_accept (m : ChatMessage) :
    ((max_body_length : Int) < atoi m.headerField →
      m.decode_header = (false, { m with body_length_ := 0 })) ∧
    (0 ≤ atoi m.headerField → atoi m.headerField ≤ (max_body_length : Int) →
      m.decode_header = (true, { m with body_length_ := (atoi m.headerField).toNat })) := by
  have hlt : atoi m.headerField < 10000 := atoi_lt _ (le_of_eq (headerField_length m))
  have hmax : (max_body_length : Int) = 512 := rfl
  constructor
  · intro hgt
    have hmod : atoi m.headerField % 18446744073709551616 = atoi m.headerField := by omega
    simp only [ChatMessage.decode_header, hmod]
    rw [if_pos]
    have h512 : max_body_length = 512 := rfl
    omega
  · intro h0 hle
    have hmod : atoi m.headerField % 18446744073709551616 = atoi m.headerField := by omega
    simp only [ChatMessage.decode_header, hmod]
    rw [if_neg]
    have h512 : max_body_length = 512 := rfl
    omega

/-- Witness for C3: a header of four ASCII 9 bytes parses to 9999 > max_body_length and is
rejected with body_length 0; a header of four ASCII 0 bytes parses to 0 ≤ max_body_length and
is accepted. -/
theorem C3_decode_reject_accept_witness :
    ((max_body_length : Int) <
        atoi ({ data_ := fun _ => 57, body_length_ := 3 } : ChatMessage).headerField ∧
      ({ data_ := fun _ => 57, body_length_ := 3 } : ChatMessage).decode_header =
        (false, { data_ := fun _ => 57, body_length_ := 0 })) ∧
    (0 ≤ atoi ({ data_ := fun _ => 48, body_length_ := 3 } : ChatMessage).headerField ∧
      atoi ({ data_ := fun _ => 48, body_length_ := 3 } : ChatMessage).headerField ≤
        (max_body_length : Int) ∧
      ({ data_ := fun _ => 48, body_length_ := 3 } : ChatMessage).decode_header =
        (true, { data_ := fun _ => 48, body_length_ :=
          (atoi ({ data_ := fun _ => 48, body_length_ := 3 } : ChatMessage).headerField).toNat })) :=
  ⟨⟨by decide,
      (C3_decode_reject_accept { data_ := fun _ => 57, body_length_ := 3 }).1 (by decide)⟩,
    ⟨by decide, by decide,
      (C3_decode_reject_accept { data_ := fun _ => 48, body_length_ := 3 }).2
        (by decide) (by decide)⟩⟩

/-- C10: the body_length(std::size_t) mutator clamps: for every n the stored body_length
equals min(n, max_body_length) and so never exceeds max_body_length. -/
theorem C10_set_body_length_min (m : ChatMessage) (n : Nat) :
    (m.set_body_length n).body_length_ = min n max_body_length ∧
    (m.set_body_length n).body_length_ ≤ max_body_length := by
  simp only [ChatMessage.set_body_length]
  constructor
  · split <;> omega
  · split <;> omega

/-- C6: the code of ChatMessage::set_data does not bound the copy.  With size = 600 (greater
than max_body_length = 512 and greater than the buffer capacity data_capacity = 516) the loop
writes the source byte at index 599, an index outside the buffer, and leaves body_length_
untouched at its previous value 7 instead of constraining it to max_body_length.  This
evaluates the code at the failing input of the C6 claim. -/
theorem C6_set_data_unbounded_copy :
    (({ data_ := fun _ => 0, body_length_ := 7 } : ChatMessage).set_data
        (fun _ => 1) 600).data_ 599 = 1 ∧
    data_capacity ≤ 599 ∧
    max_body_length < 600 ∧
    (({ data_ := fun _ => 0, body_length_ := 7 } : ChatMessage).set_data
        (fun _ => 1) 600).body_length_ = 7 :=
  ⟨by decide, by decide, by decide, rfl⟩

/-! The room and the sessions (ChatServer.hpp / ChatServer.cpp).  Participants are the
std::shared_ptr keys of the room's std::set, modelled as session ids (Nat) iterated in
ascending order.  Every push of a ChatMessage into a deque runs the user-defined copy
constructor, so each such copy takes the content of the fresh uninitialized memory as an
extra argument. -/

/-- ChatRoom::max_recent_msgs, from the enum in ChatServer.hpp. -/
def max_recent_msgs : Nat := 100

/-- std::set insert: place the key at its ordered position; inserting a present key is a
no-op. -/
def setInsert (x : Nat) : List Nat → List Nat
  | [] => [x]
  | y :: ys => if x < y then x :: y :: ys else if x = y then y :: ys else y :: setInsert x ys

/-- std::set erase of one key: remove it when present (a set holds no duplicates). -/
def setErase (x : Nat) : List Nat → List Nat
  | [] => []
  | y :: ys => if x = y then ys else y :: setErase x ys

/-- The mutable server-side state the claims are about: the room membership set
(participants_, ascending session ids), the room history deque (recent_msgs_, head =
oldest), and every session's outbound write queue (write_msgs_, head = front).  Sessions not
yet created have empty queues. -/
structure ServerState where
  participants_ : List Nat
  recent_msgs_ : List ChatMessage
  write_msgs_ : Nat → List ChatMessage

/-- A fresh server: one default-constructed ChatRoom and no sessions. -/
def initialState : ServerState :=
  { participants_ := [], recent_msgs_ := [], write_msgs_ := fun _ => [] }

/-- ChatSession::deliver for session p: push_back a copy of msg (the user-defined copy
constructor runs on the fresh memory content uninit) onto that session's write queue.  The
conditional do_write call only arms the asynchronous write of the front message and touches
no queue state; write completions are modelled by do_write_complete. -/
def ChatSession.deliver (st : ServerState) (p : Nat) (msg : ChatMessage)
    (uninit : Nat → Nat) : ServerState :=
  { st with write_msgs_ := fun q =>
      if q = p then st.write_msgs_ p ++ [msg.copyCtor uninit] else st.write_msgs_ q }

/-- The completion handler of one successful async_write of session p in
ChatSession::do_write: the front message has been written and is popped; when more messages
remain queued the new front is written next. -/
def ChatSession.do_write_complete (st : ServerState) (p : Nat) : ServerState :=
  { st with write_msgs_ := fun q =>
      if q = p then (st.write_msgs_ p).drop 1 else st.write_msgs_ q }

/-- The history trim loop of ChatRoom::deliver: while (size > max_recent_msgs) pop_front.
The fuel, instantiated with the list length, bounds the iterations, which the loop never
exceeds since every iteration shortens the deque by one. -/
def popWhileOverGo : Nat → List ChatMessage → List ChatMessage
  | 0, l => l
  | fuel + 1, l => if max_recent_msgs < l.length then popWhileOverGo fuel (l.drop 1) else l

def popWhileOver (l : List ChatMessage) : List ChatMessage :=
  popWhileOverGo l.length l

/-- The broadcast loop of ChatRoom::deliver: for each participant in set order, invoke its
deliver capability on msg; uninitDeliver p is the fresh-memory content seen by the copy made
inside session p. -/
def broadcastGo (msg : ChatMessage) (uninitDeliver : Nat → Nat → Nat) :
    List Nat → ServerState → ServerState
  | [], st => st
  | p :: ps, st =>
      broadcastGo msg uninitDeliver ps (ChatSession.deliver st p msg (uninitDeliver p))

/-- ChatRoom::deliver: push_back a copy of msg onto the history deque (uninitHist is the
fresh-memory content of that copy), trim the history from the front while it exceeds
max_recent_msgs, then deliver msg to every current participant. -/
def ChatRoom.deliver (st : ServerState) (msg : ChatMessage) (uninitHist : Nat → Nat)
    (uninitDeliver : Nat → Nat → Nat) : ServerState :=
  let st1 :=
    { st with recent_msgs_ := popWhileOver (st.recent_msgs_ ++ [msg.copyCtor uninitHist]) }
  broadcastGo msg uninitDeliver st1.participants_ st1

/-- The replay loop of ChatRoom::join: for the k-th history message (k counted from 0,
oldest first), the range-for loop copies it by value (fresh memory uninitLoop k) and the
participant's deliver copies it again into the queue (fresh memory uninitQueue k). -/
def ChatRoom.joinGo (p : Nat) (uninitLoop uninitQueue : Nat → Nat → Nat) :
    Nat → List ChatMessage → ServerState → ServerState
  | _, [], st => st
  | k, msg :: msgs, st =>
      ChatRoom.joinGo p uninitLoop uninitQueue (k + 1) msgs
        (ChatSession.deliver st p (msg.copyCtor (uninitLoop k)) (uninitQueue k))

/-- ChatRoom::join: insert the participant into the membership set, then deliver every
history message to that participant only, oldest first. -/
def ChatRoom.join (st : ServerState) (p : Nat) (uninitLoop uninitQueue : Nat → Nat → Nat) :
    ServerState :=
  ChatRoom.joinGo p uninitLoop uninitQueue 0 st.recent_msgs_
    { st with participants_ := setInsert p st.participants_ }

/-- ChatRoom::leave: erase the participant from the membership set; nothing else is
touched.  The erase of std::set never throws, which the model reflects by being a total
function. -/
def ChatRoom.leave (st : ServerState) (p : Nat) : ServerState :=
  { st with participants_ := setErase p st.participants_ }

/-- One serialized call into the room, carrying the fresh-memory contents its copies
observe. -/
inductive Op where
  | join (p : Nat) (uninitLoop uninitQueue : Nat → Nat → Nat)
  | leave (p : Nat)
  | deliver (msg : ChatMessage) (uninitHist : Nat → Nat) (uninitDeliver : Nat → Nat → Nat)

def applyOp (st : ServerState) : Op → ServerState
  | .join p u1 u2 => ChatRoom.join st p u1 u2
  | .leave p => ChatRoom.leave st p
  | .deliver m u1 u2 => ChatRoom.deliver st m u1 u2

def applyOps (ops : List Op) (st : ServerState) : ServerState :=
  ops.foldl applyOp st

/-- A sequence of ChatRoom::deliver calls, each with its message and fresh-memory
contents. -/
def applyDelivers (ds : List (ChatMessage × (Nat → Nat) × (Nat → Nat → Nat)))
    (st : ServerState) : ServerState :=
  ds.foldl (fun s d => ChatRoom.deliver s d.1 d.2.1 d.2.2) st

/-- The history entries a sequence of delivers produces: the copy each deliver pushed. -/
def histCopies (ds : List (ChatMessage × (Nat → Nat) × (Nat → Nat → Nat))) :
    List ChatMessage :=
  ds.map fun d => d.1.copyCtor d.2.1

/-- The queue entries the replay loop of join produces for the k-th and later history
messages: each history message copied by the range-for loop and copied again by the queue
push. -/
def replayGo (uninitLoop uninitQueue : Nat → Nat → Nat) :
    Nat → List ChatMessage → List ChatMessage
  | _, [] => []
  | k, msg :: msgs =>
      (msg.copyCtor (uninitLoop k)).copyCtor (uninitQueue k) ::
        replayGo uninitLoop uninitQueue (k + 1) msgs

/-- A message whose body is the two bytes 104 105 (the ASCII string hi), with a space-filled
header area. -/
def msgHi : ChatMessage :=
  { data_ := fun i => if i = 4 then 104 else if i = 5 then 105 else 32, body_length_ := 2 }

/-- A dummy deliver-call record used to instantiate universally quantified theorems. -/
def dummyDeliver : ChatMessage × (Nat → Nat) × (Nat → Nat → Nat) :=
  ({ data_ := fun _ => 0, body_length_ := 1 }, fun _ => 0, fun _ _ => 0)

/-! Lemmas about the room and session operations. -/

lemma broadcastGo_participants (msg : ChatMessage) (u : Nat → Nat → Nat) :
    ∀ (ps : List Nat) (st : ServerState),
      (broadcastGo msg u ps st).participants_ = st.participants_ := by
  intro ps
  induction ps with
  | nil => intro st; rfl
  | cons p ps ih => intro st; simp only [broadcastGo]; rw [ih]; rfl

lemma broadcastGo_recent (msg : ChatMessage) (u : Nat → Nat → Nat) :
    ∀ (ps : List Nat) (st : ServerState),
      (broadcastGo msg u ps st).recent_msgs_ = st.recent_msgs_ := by
  intro ps
  induction ps with
  | nil => intro st; rfl
  | cons p ps ih => intro st; simp only [broadcastGo]; rw [ih]; rfl

lemma broadcastGo_write (msg : ChatMessage) (u : Nat → Nat → Nat) :
    ∀ (ps : List Nat) (st : ServerState) (q : Nat), ps.Nodup →
      (broadcastGo msg u ps st).write_msgs_ q =
        if q ∈ ps then st.write_msgs_ q ++ [msg.copyCtor (u q)] else st.write_msgs_ q := by
  intro ps
  induction ps with
  | nil => intro st q _; simp [broadcastGo]
  | cons p ps ih =>
      intro st q hnd
      rw [List.nodup_cons] at hnd
      simp only [broadcastGo]
      rw [ih _ q hnd.2]
      by_cases hq : q = p
      · subst hq
        have hnot : q ∉ ps := hnd.1
        simp [ChatSession.deliver, hnot]
      · simp only [ChatSession.deliver, if_neg hq, List.mem_cons]
        have hor : (q = p ∨ q ∈ ps) ↔ q ∈ ps := by
          constructor
          · rintro (h | h)
            · exact absurd h hq
            · exact h
          · exact Or.inr
        simp only [hor]

lemma ChatRoom.deliver_participants (st : ServerState) (msg : ChatMessage)
    (uh : Nat → Nat) (ud : Nat → Nat → Nat) :
    (ChatRoom.deliver st msg uh ud).participants_ = st.participants_ := by
  unfold ChatRoom.deliver
  rw [broadcastGo_participants]

lemma ChatRoom.deliver_recent (st : ServerState) (msg : ChatMessage)
    (uh : Nat → Nat) (ud : Nat → Nat → Nat) :
    (ChatRoom.deliver st msg uh ud).recent_msgs_ =
      popWhileOver (st.recent_msgs_ ++ [msg.copyCtor uh]) := by
  unfold ChatRoom.deliver
  rw [broadcastGo_recent]

lemma ChatRoom.deliver_write (st : ServerState) (msg : ChatMessage)
    (uh : Nat → Nat) (ud : Nat → Nat → Nat) (q : Nat) (h : st.participants_.Nodup) :
    (ChatRoom.deliver st msg uh ud).write_msgs_ q =
      if q ∈ st.participants_ then st.write_msgs_ q ++ [msg.copyCtor (ud q)]
      else st.write_msgs_ q := by
  unfold ChatRoom.deliver
  exact broadcastGo_write msg ud st.participants_ _ q h

lemma joinGo_participants (p : Nat) (u1 u2 : Nat → Nat → Nat) :
    ∀ (msgs : List ChatMessage) (k : Nat) (st : ServerState),
      (ChatRoom.joinGo p u1 u2 k msgs st).participants_ = st.participants_ := by
  intro msgs
  induction msgs with
  | nil => intro k st; rfl
  | cons m msgs ih => intro k st; simp only [ChatRoom.joinGo]; rw [ih]; rfl

lemma joinGo_recent (p : Nat) (u1 u2 : Nat → Nat → Nat) :
    ∀ (msgs : List ChatMessage) (k : Nat) (st : ServerState),
      (ChatRoom.joinGo p u1 u2 k msgs st).recent_msgs_ = st.recent_msgs_ := by
  intro msgs
  induction msgs with
  | nil => intro k st; rfl
  | cons m msgs ih => intro k st; simp only [ChatRoom.joinGo]; rw [ih]; rfl

lemma joinGo_write_self (p : Nat) (u1 u2 : Nat → Nat → Nat) :
    ∀ (msgs : List ChatMessage) (k : Nat) (st : ServerState),
      (ChatRoom.joinGo p u1 u2 k msgs st).write_msgs_ p =
        st.write_msgs_ p ++ replayGo u1 u2 k msgs := by
  intro msgs
  induction msgs with
  | nil => intro k st; simp [ChatRoom.joinGo, replayGo]
  | cons m msgs ih =>
      intro k st
      simp only [ChatRoom.joinGo, replayGo]
      rw [ih]
      simp [ChatSession.deliver]

lemma joinGo_write_other (p : Nat) (u1 u2 : Nat → Nat → Nat) (q : Nat) (hq : q ≠ p) :
    ∀ (msgs : List ChatMessage) (k : Nat) (st : ServerState),
      (ChatRoom.joinGo p u1 u2 k msgs st).write_msgs_ q = st.write_msgs_ q := by
  intro msgs
  induction msgs with
  | nil => intro k st; rfl
  | cons m msgs ih =>
      intro k st
      simp only [ChatRoom.joinGo]
      rw [ih]
      simp [ChatSession.deliver, hq]

lemma replayGo_length (u1 u2 : Nat → Nat → Nat) :
    ∀ (msgs : List ChatMessage) (k : Nat),
      (replayGo u1 u2 k msgs).length = msgs.length := by
  intro msgs
  induction msgs with
  | nil => intro k; rfl
  | cons m msgs ih => intro k; simp only [replayGo, List.length_cons]; rw [ih]

lemma replayGo_map_body (u1 u2 : Nat → Nat → Nat) :
    ∀ (msgs : List ChatMessage) (k : Nat),
      (replayGo u1 u2 k msgs).map ChatMessage.body_length_ =
        msgs.map ChatMessage.body_length_ := by
  intro msgs
  induction msgs with
  | nil => intro k; rfl
  | cons m msgs ih =>
      intro k
      simp only [replayGo, List.map_cons]
      rw [ih]
      rfl

lemma popWhileOverGo_eq : ∀ (fuel : Nat) (l : List ChatMessage),
    l.length ≤ max_recent_msgs + fuel →
    popWhileOverGo fuel l = l.drop (l.length - max_recent_msgs) := by
  intro fuel
  induction fuel with
  | zero =>
      intro l h
      have h0 : l.length - max_recent_msgs = 0 := by omega
      rw [h0, List.drop_zero]
      rfl
  | succ fuel ih =>
      intro l h
      simp only [popWhileOverGo]
      split
      · rename_i hlen
        rw [ih (l.drop 1) (by simp only [List.length_drop]; omega)]
        simp only [List.length_drop]
        rw [List.drop_drop]
        congr 1
        omega
      · rename_i hlen
        have h0 : l.length - max_recent_msgs = 0 := by omega
        rw [h0, List.drop_zero]

lemma popWhileOver_eq (l : List ChatMessage) :
    popWhileOver l = l.drop (l.length - max_recent_msgs) :=
  popWhileOverGo_eq l.length l (by omega)

lemma popWhileOver_length (l : List ChatMessage) :
    (popWhileOver l).length = min l.length max_recent_msgs := by
  rw [popWhileOver_eq]
  simp only [List.length_drop]
  omega

lemma trim_trim (a b : List ChatMessage) :
    (a.drop (a.length - max_recent_msgs) ++ b).drop
        ((a.drop (a.length - max_recent_msgs) ++ b).length - max_recent_msgs) =
      (a ++ b).drop ((a ++ b).length - max_recent_msgs) := by
  simp only [List.length_append, List.length_drop]
  rw [List.drop_append_eq_append_drop, List.drop_append_eq_append_drop]
  rw [List.drop_drop]
  simp only [List.length_drop]
  congr 2
  · omega
  · omega

lemma applyDelivers_cons (d : ChatMessage × (Nat → Nat) × (Nat → Nat → Nat))
    (ds : List (ChatMessage × (Nat → Nat) × (Nat → Nat → Nat))) (st : ServerState) :
    applyDelivers (d :: ds) st = applyDelivers ds (ChatRoom.deliver st d.1 d.2.1 d.2.2) :=
  rfl

lemma applyDelivers_participants :
    ∀ (ds : List (ChatMessage × (Nat → Nat) × (Nat → Nat → Nat))) (st : ServerState),
      (applyDelivers ds st).participants_ = st.participants_ := by
  intro ds
  induction ds with
  | nil => intro st; rfl
  | cons d ds ih =>
      intro st
      rw [applyDelivers_cons, ih, ChatRoom.deliver_participants]

lemma applyDelivers_recent :
    ∀ (ds : List (ChatMessage × (Nat → Nat) × (Nat → Nat → Nat))) (st : ServerState),
      st.recent_msgs_.length ≤ max_recent_msgs →
      (applyDelivers ds st).recent_msgs_ =
        (st.recent_msgs_ ++ histCopies ds).drop
          ((st.recent_msgs_ ++ histCopies ds).length - max_recent_msgs) := by
  intro ds
  induction ds with
  | nil =>
      intro st h
      simp only [histCopies, List.map_nil, List.append_nil]
      have h0 : st.recent_msgs_.length - max_recent_msgs = 0 := by omega
      rw [h0, List.drop_zero]
      rfl
  | cons d ds ih =>
      intro st h
      rw [applyDelivers_cons]
      rw [ih _ (by rw [ChatRoom.deliver_recent, popWhileOver_length]; omega)]
      rw [ChatRoom.deliver_recent, popWhileOver_eq]
      rw [trim_trim (st.recent_msgs_ ++ [d.1.copyCtor d.2.1]) (histCopies ds)]
      rw [List.append_assoc, List.singleton_append]
      rfl

lemma applyDelivers_write_of_empty :
    ∀ (ds : List (ChatMessage × (Nat → Nat) × (Nat → Nat → Nat))) (st : ServerState),
      st.participants_ = [] → (applyDelivers ds st).write_msgs_ = st.write_msgs_ := by
  intro ds
  induction ds with
  | nil => intro st _; rfl
  | cons d ds ih =>
      intro st hp
      rw [applyDelivers_cons]
      rw [ih _ (by rw [ChatRoom.deliver_participants]; exact hp)]
      unfold ChatRoom.deliver
      rw [hp]
      rfl

lemma applyOps_cons (op : Op) (ops : List Op) (st : ServerState) :
    applyOps (op :: ops) st = applyOps ops (applyOp st op) :=
  rfl

lemma applyOp_recent_le (st : ServerState) (op : Op)
    (h : st.recent_msgs_.length ≤ max_recent_msgs) :
    (applyOp st op).recent_msgs_.length ≤ max_recent_msgs := by
  cases op with
  | join p u1 u2 =>
      simp only [applyOp, ChatRoom.join]
      rw [joinGo_recent]
      exact h
  | leave p => exact h
  | deliver m u1 u2 =>
      simp only [applyOp]
      rw [ChatRoom.deliver_recent, popWhileOver_length]
      omega

lemma applyOps_recent_le :
    ∀ (ops : List Op) (st : ServerState),
      st.recent_msgs_.length ≤ max_recent_msgs →
      (applyOps ops st).recent_msgs_.length ≤ max_recent_msgs := by
  intro ops
  induction ops with
  | nil => intro st h; exact h
  | cons op ops ih =>
      intro st h
      rw [applyOps_cons]
      exact ih _ (applyOp_recent_le st op h)

lemma setErase_of_not_mem (x : Nat) :
    ∀ l : List Nat, x ∉ l → setErase x l = l := by
  intro l
  induction l with
  | nil => intro _; rfl
  | cons y ys ih =>
      intro h
      rw [List.mem_cons, not_or] at h
      simp only [setErase, if_neg h.1]
      rw [ih h.2]

lemma mem_setErase (x : Nat) :
    ∀ (l : List Nat) (q : Nat), l.Nodup →
      (q ∈ setErase x l ↔ q ∈ l ∧ q ≠ x) := by
  intro l
  induction l with
  | nil => intro q _; simp [setErase]
  | cons y ys ih =>
      intro q hnd
      rw [List.nodup_cons] at hnd
      simp only [setErase]
      by_cases hxy : x = y
      · subst hxy
        rw [if_pos rfl]
        simp only [List.mem_cons]
        constructor
        · intro hq
          refine ⟨Or.inr hq, ?_⟩
          intro hqx
          exact hnd.1 (hqx ▸ hq)
        · rintro ⟨hq | hq, hne⟩
          · exact absurd hq hne
          · exact hq
      · rw [if_neg hxy]
        simp only [List.mem_cons]
        rw [ih q hnd.2]
        constructor
        · rintro (hq | ⟨hq, hne⟩)
          · exact ⟨Or.inl hq, by rw [hq]; intro hc; exact hxy hc.symm⟩
          · exact ⟨Or.inr hq, hne⟩
        · rintro ⟨hq | hq, hne⟩
          · exact Or.inl hq
          · exact Or.inr ⟨hq, hne⟩

lemma not_mem_setErase_self (x : Nat) (l : List Nat) (h : l.Nodup) :
    x ∉ setErase x l := by
  intro hmem
  rw [mem_setErase x l x h] at hmem
  exact hmem.2 rfl

lemma ChatRoom.join_write_self (st : ServerState) (p : Nat) (u1 u2 : Nat → Nat → Nat) :
    (ChatRoom.join st p u1 u2).write_msgs_ p =
      st.write_msgs_ p ++ replayGo u1 u2 0 st.recent_msgs_ := by
  unfold ChatRoom.join
  rw [joinGo_write_self]

lemma ChatRoom.join_participants (st : ServerState) (p : Nat) (u1 u2 : Nat → Nat → Nat) :
    (ChatRoom.join st p u1 u2).participants_ = setInsert p st.participants_ := by
  unfold ChatRoom.join
  rw [joinGo_participants]

lemma ChatRoom.join_recent (st : ServerState) (p : Nat) (u1 u2 : Nat → Nat → Nat) :
    (ChatRoom.join st p u1 u2).recent_msgs_ = st.recent_msgs_ := by
  unfold ChatRoom.join
  rw [joinGo_recent]

lemma do_write_complete_self (st : ServerState) (p : Nat) :
    (ChatSession.do_write_complete st p).write_msgs_ p = (st.write_msgs_ p).drop 1 := by
  simp [ChatSession.do_write_complete]

/-- C2: the claim says copying a Message into the history deque or a participant's write
queue preserves its header and body bytes, so an already-joined participant receives a
Message whose body equals the sent hi.  The code contradicts it: the user-defined copy
constructor copies only body_length_, so the copy pushed into participant 7's queue carries
the uninitialized memory (here all zero bytes) as its body, not the bytes 104 105 of hi;
only the body length 2 survives.  This evaluates ChatRoom::deliver at the failing input. -/
theorem C2_relay_loses_body :
    msgHi.bodyBytes = [104, 105] ∧
    (ChatRoom.deliver ⟨[7], [], fun _ => []⟩ msgHi (fun _ => 0)
        (fun _ _ => 0)).write_msgs_ 7 = [msgHi.copyCtor (fun _ => 0)] ∧
    (msgHi.copyCtor (fun _ => 0)).body_length_ = msgHi.body_length_ ∧
    (msgHi.copyCtor (fun _ => 0)).bodyBytes = [0, 0] ∧
    [(0 : Nat), 0] ≠ [104, 105] :=
  ⟨rfl, rfl, rfl, rfl, by decide⟩

/-- C4: history bound invariant.  After any sequence of join, leave and deliver calls on a
fresh room, the history length never exceeds max_recent_msgs = 100; and after a sequence of
more than 100 delivers, the history holds exactly the copies pushed by the 100 most recent
delivers, oldest first (eviction from the front). -/
theorem C4_history_bound :
    (∀ ops : List Op, (applyOps ops initialState).recent_msgs_.length ≤ max_recent_msgs) ∧
    (∀ ds : List (ChatMessage × (Nat → Nat) × (Nat → Nat → Nat)),
      max_recent_msgs ≤ ds.length →
      (applyDelivers ds initialState).recent_msgs_ =
        histCopies (ds.drop (ds.length - max_recent_msgs))) := by
  constructor
  · intro ops
    exact applyOps_recent_le ops initialState (by norm_num [initialState, max_recent_msgs])
  · intro ds h
    rw [applyDelivers_recent ds initialState (by norm_num [initialState, max_recent_msgs])]
    simp only [initialState, List.nil_append]
    have hlen : (histCopies ds).length = ds.length := by simp [histCopies]
    rw [hlen]
    unfold histCopies
    rw [List.map_drop]

/-- Witness for C4 at a sequence of 101 delivers. -/
theorem C4_history_bound_witness :
    max_recent_msgs ≤ (List.replicate 101 dummyDeliver).length ∧
    (applyDelivers (List.replicate 101 dummyDeliver) initialState).recent_msgs_ =
      histCopies ((List.replicate 101 dummyDeliver).drop
        ((List.replicate 101 dummyDeliver).length - max_recent_msgs)) :=
  ⟨by norm_num [max_recent_msgs],
    C4_history_bound.2 (List.replicate 101 dummyDeliver)
      (by norm_num [max_recent_msgs])⟩

/-- C5: replay-on-join.  A participant joining a fresh room after exactly N prior deliver
calls, N ≤ 100, has its deliver capability invoked exactly N times by join: its queue then
holds exactly one entry per history message, in the original chronological order (each entry
being the double copy the loop makes of the corresponding history entry, carrying that
message's body length), and any subsequently delivered message is appended after all of
them. -/
theorem C5_replay_on_join (ds : List (ChatMessage × (Nat → Nat) × (Nat → Nat → Nat)))
    (p : Nat) (u1 u2 : Nat → Nat → Nat) (h : ds.length ≤ max_recent_msgs) :
    (ChatRoom.join (applyDelivers ds initialState) p u1 u2).write_msgs_ p =
      replayGo u1 u2 0 (histCopies ds) ∧
    (replayGo u1 u2 0 (histCopies ds)).length = ds.length ∧
    (replayGo u1 u2 0 (histCopies ds)).map ChatMessage.body_length_ =
      ds.map (fun d => d.1.body_length_) ∧
    ∀ (m : ChatMessage) (uh : Nat → Nat) (ud : Nat → Nat → Nat),
      (ChatRoom.deliver (ChatRoom.join (applyDelivers ds initialState) p u1 u2)
          m uh ud).write_msgs_ p =
        replayGo u1 u2 0 (histCopies ds) ++ [m.copyCtor (ud p)] := by
  have hst_p : (applyDelivers ds initialState).participants_ = [] := by
    rw [applyDelivers_participants]
    rfl
  have hst_r : (applyDelivers ds initialState).recent_msgs_ = histCopies ds := by
    rw [applyDelivers_recent ds initialState (by norm_num [initialState, max_recent_msgs])]
    simp only [initialState, List.nil_append]
    have hlen : (histCopies ds).length = ds.length := by simp [histCopies]
    rw [hlen]
    have h0 : ds.length - max_recent_msgs = 0 := by omega
    rw [h0, List.drop_zero]
  have hst_w : (applyDelivers ds initialState).write_msgs_ = initialState.write_msgs_ :=
    applyDelivers_write_of_empty ds initialState rfl
  have hwp : (ChatRoom.join (applyDelivers ds initialState) p u1 u2).write_msgs_ p =
      replayGo u1 u2 0 (histCopies ds) := by
    rw [ChatRoom.join_write_self, hst_w, hst_r]
    simp [initialState]
  have hjp : (ChatRoom.join (applyDelivers ds initialState) p u1 u2).participants_ = [p] := by
    rw [ChatRoom.join_participants, hst_p]
    rfl
  refine ⟨hwp, ?_, ?_, ?_⟩
  · rw [replayGo_length]
    simp [histCopies]
  · rw [replayGo_map_body]
    unfold histCopies
    rw [List.map_map]
    rfl
  · intro m uh ud
    have hd := ChatRoom.deliver_write (ChatRoom.join (applyDelivers ds initialState) p u1 u2)
      m uh ud p (by rw [hjp]; simp)
    rw [hjp] at hd
    rw [hd, if_pos (by simp), hwp]

/-- Witness for C5 with one prior deliver. -/
theorem C5_replay_on_join_witness :
    ([dummyDeliver] : List (ChatMessage × (Nat → Nat) × (Nat → Nat → Nat))).length ≤
        max_recent_msgs ∧
    ((ChatRoom.join (applyDelivers [dummyDeliver] initialState) 5 (fun _ _ => 0)
        (fun _ _ => 0)).write_msgs_ 5 =
      replayGo (fun _ _ => 0) (fun _ _ => 0) 0 (histCopies [dummyDeliver]) ∧
    (replayGo (fun _ _ => 0) (fun _ _ => 0) 0 (histCopies [dummyDeliver])).length =
      ([dummyDeliver] : List (ChatMessage × (Nat → Nat) × (Nat → Nat → Nat))).length ∧
    (replayGo (fun _ _ => 0) (fun _ _ => 0) 0
        (histCopies [dummyDeliver])).map ChatMessage.body_length_ =
      ([dummyDeliver] : List (ChatMessage × (Nat → Nat) × (Nat → Nat → Nat))).map
        (fun d => d.1.body_length_) ∧
    ∀ (m : ChatMessage) (uh : Nat → Nat) (ud : Nat → Nat → Nat),
      (ChatRoom.deliver (ChatRoom.join (applyDelivers [dummyDeliver] initialState) 5
          (fun _ _ => 0) (fun _ _ => 0)) m uh ud).write_msgs_ 5 =
        replayGo (fun _ _ => 0) (fun _ _ => 0) 0 (histCopies [dummyDeliver]) ++
          [m.copyCtor (ud 5)]) :=
  ⟨by norm_num [max_recent_msgs],
    C5_replay_on_join [dummyDeliver] 5 (fun _ _ => 0) (fun _ _ => 0)
      (by norm_num [max_recent_msgs])⟩

/-- C7: broadcast coverage.  Every ChatRoom::deliver invokes the deliver capability of every
participant currently in the membership set (the sender, being a member, included) exactly
once, appending exactly one copy of msg to that participant's queue; a non-member's queue is
untouched. -/
theorem C7_broadcast_coverage (st : ServerState) (msg : ChatMessage) (uh : Nat → Nat)
    (ud : Nat → Nat → Nat) (p : Nat) (h : st.participants_.Nodup) :
    (p ∈ st.participants_ →
      (ChatRoom.deliver st msg uh ud).write_msgs_ p =
        st.write_msgs_ p ++ [msg.copyCtor (ud p)]) ∧
    (p ∉ st.participants_ →
      (ChatRoom.deliver st msg uh ud).write_msgs_ p = st.write_msgs_ p) := by
  have hd := ChatRoom.deliver_write st msg uh ud p h
  constructor
  · intro hp
    rw [hd, if_pos hp]
  · intro hp
    rw [hd, if_neg hp]

/-- Witness for C7: a room with members 1 and 2; member 1 gets exactly one copy, non-member
5 gets nothing. -/
theorem C7_broadcast_coverage_witness :
    (⟨[1, 2], [], fun _ => []⟩ : ServerState).participants_.Nodup ∧
    ((1 ∈ (⟨[1, 2], [], fun _ => []⟩ : ServerState).participants_ →
      (ChatRoom.deliver (⟨[1, 2], [], fun _ => []⟩ : ServerState) msgHi (fun _ => 0)
          (fun _ _ => 0)).write_msgs_ 1 =
        (⟨[1, 2], [], fun _ => []⟩ : ServerState).write_msgs_ 1 ++
          [msgHi.copyCtor ((fun _ _ => 0) 1)]) ∧
    (1 ∉ (⟨[1, 2], [], fun _ => []⟩ : ServerState).participants_ →
      (ChatRoom.deliver (⟨[1, 2], [], fun _ => []⟩ : ServerState) msgHi (fun _ => 0)
          (fun _ _ => 0)).write_msgs_ 1 =
        (⟨[1, 2], [], fun _ => []⟩ : ServerState).write_msgs_ 1)) :=
  ⟨by decide,
    C7_broadcast_coverage ⟨[1, 2], [], fun _ => []⟩ msgHi (fun _ => 0) (fun _ _ => 0) 1
      (by decide)⟩

/-- C8: per-participant order preservation.  For three serialized ChatRoom::deliver calls
with messages m1, m2, m3 and a participant p that is a member throughout and starts with an
empty queue, p's queue receives exactly the three pushed copies in the order m1, m2, m3
(each copy carrying the body length of its message), and the error-free write loop dequeues
them front first in that same order. -/
theorem C8_per_participant_order (st : ServerState) (p : Nat) (m1 m2 m3 : ChatMessage)
    (a1 : Nat → Nat) (b1 : Nat → Nat → Nat) (a2 : Nat → Nat) (b2 : Nat → Nat → Nat)
    (a3 : Nat → Nat) (b3 : Nat → Nat → Nat)
    (hmem : p ∈ st.participants_) (hnd : st.participants_.Nodup)
    (hq : st.write_msgs_ p = []) :
    (ChatRoom.deliver (ChatRoom.deliver (ChatRoom.deliver st m1 a1 b1) m2 a2 b2)
        m3 a3 b3).write_msgs_ p =
      [m1.copyCtor (b1 p), m2.copyCtor (b2 p), m3.copyCtor (b3 p)] ∧
    [m1.copyCtor (b1 p), m2.copyCtor (b2 p), m3.copyCtor (b3 p)].map
        ChatMessage.body_length_ =
      [m1.body_length_, m2.body_length_, m3.body_length_] ∧
    (ChatSession.do_write_complete
        (ChatRoom.deliver (ChatRoom.deliver (ChatRoom.deliver st m1 a1 b1) m2 a2 b2)
          m3 a3 b3) p).write_msgs_ p =
      [m2.copyCtor (b2 p), m3.copyCtor (b3 p)] ∧
    (ChatSession.do_write_complete (ChatSession.do_write_complete
        (ChatRoom.deliver (ChatRoom.deliver (ChatRoom.deliver st m1 a1 b1) m2 a2 b2)
          m3 a3 b3) p) p).write_msgs_ p =
      [m3.copyCtor (b3 p)] := by
  have hp1 : (ChatRoom.deliver st m1 a1 b1).participants_ = st.participants_ :=
    ChatRoom.deliver_participants st m1 a1 b1
  have hp2 : (ChatRoom.deliver (ChatRoom.deliver st m1 a1 b1) m2 a2 b2).participants_ =
      st.participants_ := by
    rw [ChatRoom.deliver_participants, hp1]
  have e1 : (ChatRoom.deliver st m1 a1 b1).write_msgs_ p = [m1.copyCtor (b1 p)] := by
    rw [ChatRoom.deliver_write st m1 a1 b1 p hnd, if_pos hmem, hq]
    rfl
  have e2 : (ChatRoom.deliver (ChatRoom.deliver st m1 a1 b1) m2 a2 b2).write_msgs_ p =
      [m1.copyCtor (b1 p), m2.copyCtor (b2 p)] := by
    rw [ChatRoom.deliver_write _ m2 a2 b2 p (by rw [hp1]; exact hnd),
      if_pos (by rw [hp1]; exact hmem), e1]
    rfl
  have e3 : (ChatRoom.deliver (ChatRoom.deliver (ChatRoom.deliver st m1 a1 b1) m2 a2 b2)
      m3 a3 b3).write_msgs_ p =
      [m1.copyCtor (b1 p), m2.copyCtor (b2 p), m3.copyCtor (b3 p)] := by
    rw [ChatRoom.deliver_write _ m3 a3 b3 p (by rw [hp2]; exact hnd),
      if_pos (by rw [hp2]; exact hmem), e2]
    rfl
  refine ⟨e3, rfl, ?_, ?_⟩
  · rw [do_write_complete_self, e3]
    rfl
  · rw [do_write_complete_self, do_write_complete_self, e3]
    rfl

/-- Witness for C8: a one-member room, three deliveries of msgHi. -/
theorem C8_per_participant_order_witness :
    7 ∈ (⟨[7], [], fun _ => []⟩ : ServerState).participants_ ∧
    (⟨[7], [], fun _ => []⟩ : ServerState).participants_.Nodup ∧
    (⟨[7], [], fun _ => []⟩ : ServerState).write_msgs_ 7 = [] ∧
    ((ChatRoom.deliver (ChatRoom.deliver (ChatRoom.deliver
          (⟨[7], [], fun _ => []⟩ : ServerState) msgHi (fun _ => 0) (fun _ _ => 0))
          msgHi (fun _ => 0) (fun _ _ => 0)) msgHi (fun _ => 0)
          (fun _ _ => 0)).write_msgs_ 7 =
      [msgHi.copyCtor ((fun _ _ => 0) 7), msgHi.copyCtor ((fun _ _ => 0) 7),
        msgHi.copyCtor ((fun _ _ => 0) 7)] ∧
    [msgHi.copyCtor ((fun _ _ => 0) 7), msgHi.copyCtor ((fun _ _ => 0) 7),
        msgHi.copyCtor ((fun _ _ => 0) 7)].map ChatMessage.body_length_ =
      [msgHi.body_length_, msgHi.body_length_, msgHi.body_length_] ∧
    (ChatSession.do_write_complete (ChatRoom.deliver (ChatRoom.deliver (ChatRoom.deliver
          (⟨[7], [], fun _ => []⟩ : ServerState) msgHi (fun _ => 0) (fun _ _ => 0))
          msgHi (fun _ => 0) (fun _ _ => 0)) msgHi (fun _ => 0) (fun _ _ => 0))
        7).write_msgs_ 7 =
      [msgHi.copyCtor ((fun _ _ => 0) 7), msgHi.copyCtor ((fun _ _ => 0) 7)] ∧
    (ChatSession.do_write_complete (ChatSession.do_write_complete
        (ChatRoom.deliver (ChatRoom.deliver (ChatRoom.deliver
          (⟨[7], [], fun _ => []⟩ : ServerState) msgHi (fun _ => 0) (fun _ _ => 0))
          msgHi (fun _ => 0) (fun _ _ => 0)) msgHi (fun _ => 0) (fun _ _ => 0)) 7)
        7).write_msgs_ 7 =
      [msgHi.copyCtor ((fun _ _ => 0) 7)]) :=
  ⟨by decide, by decide, rfl,
    C8_per_participant_order ⟨[7], [], fun _ => []⟩ 7 msgHi msgHi msgHi
      (fun _ => 0) (fun _ _ => 0) (fun _ => 0) (fun _ _ => 0) (fun _ => 0) (fun _ _ => 0)
      (by decide) (by decide) rfl⟩

/-- C9: idempotent leave.  Leaving removes exactly the given participant from the membership
set; a second leave with the same participant is a no-op, leaving a never-joined participant
is a no-op, and leave never touches the history or any write queue.  The operation is total
(std::set erase raises no error on a non-member). -/
theorem C9_idempotent_leave (st : ServerState) (p : Nat) (h : st.participants_.Nodup) :
    (∀ q, q ∈ (ChatRoom.leave st p).participants_ ↔ q ∈ st.participants_ ∧ q ≠ p) ∧
    ChatRoom.leave (ChatRoom.leave st p) p = ChatRoom.leave st p ∧
    (ChatRoom.leave st p).recent_msgs_ = st.recent_msgs_ ∧
    (ChatRoom.leave st p).write_msgs_ = st.write_msgs_ ∧
    (p ∉ st.participants_ → ChatRoom.leave st p = st) := by
  refine ⟨?_, ?_, rfl, rfl, ?_⟩
  · intro q
    exact mem_setErase p st.participants_ q h
  · show ({ st with participants_ := setErase p (setErase p st.participants_) } :
        ServerState) = { st with participants_ := setErase p st.participants_ }
    rw [setErase_of_not_mem p _ (not_mem_setErase_self p st.participants_ h)]
  · intro hp
    show ({ st with participants_ := setErase p st.participants_ } : ServerState) = st
    rw [setErase_of_not_mem p _ hp]

/-- Witness for C9: a room with members 1 and 2, leaving participant 2. -/
theorem C9_idempotent_leave_witness :
    (⟨[1, 2], [], fun _ => []⟩ : ServerState).participants_.Nodup ∧
    ((∀ q, q ∈ (ChatRoom.leave (⟨[1, 2], [], fun _ => []⟩ : ServerState) 2).participants_ ↔
        q ∈ (⟨[1, 2], [], fun _ => []⟩ : ServerState).participants_ ∧ q ≠ 2) ∧
    ChatRoom.leave (ChatRoom.leave (⟨[1, 2], [], fun _ => []⟩ : ServerState) 2) 2 =
      ChatRoom.leave (⟨[1, 2], [], fun _ => []⟩ : ServerState) 2 ∧
    (ChatRoom.leave (⟨[1, 2], [], fun _ => []⟩ : ServerState) 2).recent_msgs_ =
      (⟨[1, 2], [], fun _ => []⟩ : ServerState).recent_msgs_ ∧
    (ChatRoom.leave (⟨[1, 2], [], fun _ => []⟩ : ServerState) 2).write_msgs_ =
      (⟨[1, 2], [], fun _ => []⟩ : ServerState).write_msgs_ ∧
    (2 ∉ (⟨[1, 2], [], fun _ => []⟩ : ServerState).participants_ →
      ChatRoom.leave (⟨[1, 2], [], fun _ => []⟩ : ServerState) 2 =
        (⟨[1, 2], [], fun _ => []⟩ : ServerState))) :=
  ⟨by decide, C9_idempotent_leave ⟨[1, 2], [], fun _ => []⟩ 2 (by decide)⟩

end EncrypT
